import Mathlib

/-!
Verification of the `markov-strings` persistent Markov-chain library
(`src/index.ts`) against its natural-language specification.

The TypeScript source is shallowly embedded:

* JavaScript strings are modelled as `List Char` (`JStr`); the helpers
  `jsSplit`, `jsJoin`, `jsTrim` model `String.prototype.split(' ')`,
  `Array.prototype.join(' ')` and `String.prototype.trim()`.
* The TypeORM-backed store is modelled as an explicit record `DB` holding the
  three entity tables (`CorpusEntry`, `MarkovFragment`, `MarkovInputData`) as
  lists in insertion order with a fresh-id counter; `findOne` without an
  explicit ordering is modelled as first match in insertion order, and the
  `ORDER BY RANDOM() LIMIT 1` sampling primitive takes its randomness from an
  explicit stream of natural numbers.
* Batched entity saves of the import path are modelled as immediate saves in
  creation order (only ids differ, and nothing below depends on id values).
* Thrown JavaScript errors are modelled with `Except`; the distinct failure
  modes of `generate` get one constructor each, including the runtime
  `TypeError` raised by dereferencing the non-null-asserted missing start
  fragment, which the specification names `NoFragmentError`.
-/

/-- JavaScript string, modelled as its character list. -/
abbrev JStr := List Char

/-- `s.split(' ')` of JavaScript: split on every single space, keeping empty
pieces; the empty string yields one empty piece. -/
def jsSplit : JStr → List JStr
  | [] => [[]]
  | c :: rest =>
    if c = ' ' then [] :: jsSplit rest
    else
      match jsSplit rest with
      | [] => [[c]]
      | w :: ws => (c :: w) :: ws

/-- `arr.join(' ')` of JavaScript. -/
def jsJoin : List JStr → JStr
  | [] => []
  | [w] => w
  | w :: ws => w ++ ' ' :: jsJoin ws

/-- `s.trim()` of JavaScript: strip whitespace from both ends. -/
def jsTrim (s : JStr) : JStr :=
  ((s.dropWhile Char.isWhitespace).reverse.dropWhile Char.isWhitespace).reverse

/-- lodash `slice(array, start, end)`: negative indices count from the end,
indices past the end are clamped. -/
def lodashSlice (l : List α) (s e : Int) : List α :=
  let len : Int := l.length
  let s2 : Int := if s < 0 then max (len + s) 0 else s
  let e2 : Int := if e < 0 then len + e else min e len
  (l.take e2.toNat).drop s2.toNat

/-- Opaque caller payload (`custom` fields): a JS object as an ordered field
map. -/
abbrev Custom := List (String × JStr)

/-- Entity `CorpusEntry`: `block` keyed under its owning root (`markov`). -/
structure CorpusEntry where
  id : Nat
  markov : String
  block : JStr
  deriving DecidableEq

/-- Entity `MarkovFragment` with its three nullable parent links. -/
structure MarkovFragment where
  id : Nat
  words : JStr
  startWordMarkov : Option String := none
  endWordMarkov : Option String := none
  corpusEntry : Option Nat := none
  deriving DecidableEq

/-- Entity `MarkovInputData` (a Reference): `string` is `Option` because the
legacy import can leave it `undefined`. -/
structure MarkovInputData where
  id : Nat
  fragment : Nat
  string : Option JStr := none
  custom : Option Custom := none
  deriving DecidableEq

/-- The store state: the three entity tables in insertion order, plus the
fresh-id counter. -/
structure DB where
  nextId : Nat := 0
  entries : List CorpusEntry := []
  fragments : List MarkovFragment := []
  inputData : List MarkovInputData := []
  deriving DecidableEq

/-- `CorpusEntry.save` on a fresh record. -/
def DB.saveEntry (db : DB) (markov : String) (block : JStr) : DB × CorpusEntry :=
  let e : CorpusEntry := { id := db.nextId, markov := markov, block := block }
  ({ db with nextId := db.nextId + 1, entries := db.entries ++ [e] }, e)

/-- `MarkovFragment.save` on a fresh record. -/
def DB.saveFragment (db : DB) (words : JStr) (sw ew : Option String) (ce : Option Nat) :
    DB × MarkovFragment :=
  let f : MarkovFragment :=
    { id := db.nextId, words := words, startWordMarkov := sw, endWordMarkov := ew,
      corpusEntry := ce }
  ({ db with nextId := db.nextId + 1, fragments := db.fragments ++ [f] }, f)

/-- `MarkovInputData.save` on a fresh record. -/
def DB.saveRef (db : DB) (fragment : Nat) (s : Option JStr) (c : Option Custom) : DB :=
  let r : MarkovInputData := { id := db.nextId, fragment := fragment, string := s, custom := c }
  { db with nextId := db.nextId + 1, inputData := db.inputData ++ [r] }

/-- `sampleFragment`: `ORDER BY RANDOM() LIMIT 1` over the fragments matching
the condition, the random draw taken from an explicit index `n`. -/
def sampleFragment (db : DB) (pred : MarkovFragment → Bool) (n : Nat) :
    Option MarkovFragment :=
  let hits := db.fragments.filter pred
  hits.get? (n % hits.length)

/-- One ingest item after the `addData` input normalisation: `string` is
`none` when the slot holds a non-string JS value (`undefined` or an object),
which makes `line.split(' ')` throw at use. -/
structure AddDataProps where
  string : Option JStr
  custom : Option Custom := none
  deriving DecidableEq

/-- Errors surfaced by `addData` / `buildCorpus`: the explicit
`InvalidInputError` (`Objects in your corpus must have a "string" property`)
and the untyped runtime `TypeError` thrown when a non-string value is
dereferenced. -/
inductive AddErr where
  | invalidInput
  | typeError
  deriving DecidableEq

/-- The body of `buildCorpus`'s per-item loop (`src/index.ts:397-519`). -/
def processItem (root : String) (stateSize : Nat) (db : DB) (item : AddDataProps) :
    Except AddErr DB :=
  match item.string with
  | none => .error .typeError
  | some line =>
    let words := jsSplit line
    let start := jsJoin (lodashSlice words 0 (stateSize : Int))
    let db :=
      match db.fragments.find? fun (f : MarkovFragment) =>
          f.startWordMarkov == some root && f.words == start with
      | some oldStartObj =>
        match db.inputData.find? fun (r : MarkovInputData) => r.fragment == oldStartObj.id with
        | some _ => db
        | none => db.saveRef oldStartObj.id (some line) item.custom
      | none =>
        let (db, fragment) := db.saveFragment start (some root) none none
        db.saveRef fragment.id (some line) item.custom
    let endW := jsJoin (lodashSlice words ((words.length : Int) - stateSize) (words.length : Int))
    let db :=
      match db.fragments.find? fun (f : MarkovFragment) =>
          f.endWordMarkov == some root && f.words == endW with
      | some oldEndObj =>
        match db.inputData.find? fun (r : MarkovInputData) => r.fragment == oldEndObj.id with
        | some _ => db
        | none => db.saveRef oldEndObj.id (some line) item.custom
      | none =>
        let (db, fragment) := db.saveFragment endW none (some root) none
        db.saveRef fragment.id (some line) item.custom
    let db := (List.range (words.length - 1)).foldl
      (fun db i =>
        let curr := jsJoin (lodashSlice words (i : Int) ((i : Int) + stateSize))
        let next := jsJoin (lodashSlice words ((i : Int) + stateSize) ((i : Int) + 2 * stateSize))
        if next = [] ∨ (jsSplit next).length ≠ stateSize then db
        else
          match db.entries.find? fun (e : CorpusEntry) => e.markov == root && e.block == curr with
          | some block =>
            match db.fragments.find? fun (f : MarkovFragment) =>
                f.corpusEntry == some block.id && f.words == next with
            | some oldObj => db.saveRef oldObj.id (some line) item.custom
            | none =>
              let (db, fragment) := db.saveFragment next none none (some block.id)
              db.saveRef fragment.id (some line) item.custom
          | none =>
            let (db, entry) := db.saveEntry root curr
            let (db, fragment) := db.saveFragment next none none (some entry.id)
            db.saveRef fragment.id (some line) item.custom)
      db
    .ok db

/-- `buildCorpus` (`src/index.ts:392-520`): process the items in order; a
thrown error aborts the remaining items. -/
def buildCorpus (root : String) (stateSize : Nat) (db : DB) (data : List AddDataProps) :
    Except AddErr DB :=
  data.foldlM (processItem root stateSize) db

/-- One element of `addData`'s raw input: a bare string or a structured item
(whose `string` field may be absent). -/
inductive RawItem where
  | str (s : JStr)
  | obj (strField : Option JStr) (customField : Option Custom)
  deriving DecidableEq

/-- Is this raw element a bare string? -/
def RawItem.isStr : RawItem → Bool
  | .str _ => true
  | .obj _ _ => false

/-- The cast `(rawData as string[]).map(s => ({string: s}))`: a non-string
element gets wrapped whole into the `string` slot, which is not a string. -/
def castAsStrings : RawItem → AddDataProps
  | .str s => { string := some s }
  | .obj _ _ => { string := none }

/-- The cast `rawData as AddDataProps[]`: a bare string element has no
`string` property, so the slot reads back `undefined`. -/
def castAsObjects : RawItem → AddDataProps
  | .str _ => { string := none }
  | .obj s c => { string := s, custom := c }

/-- `addData` (`src/index.ts:371-385`): the input-shape dispatch reads only
`rawData[0]`.  On an empty array `rawData[0]` is `undefined`: `isString`
returns `false` and `Object.hasOwnProperty.call(undefined, 'string')` throws a
`TypeError`. -/
def addData (root : String) (stateSize : Nat) (db : DB) (rawData : List RawItem) :
    Except AddErr DB :=
  match rawData with
  | [] => .error .typeError
  | first :: _ =>
    match first with
    | .str _ => buildCorpus root stateSize db (rawData.map castAsStrings)
    | .obj s _ =>
      if s.isSome then buildCorpus root stateSize db (rawData.map castAsObjects)
      else .error .invalidInput

/-- The result record returned by `generate`. -/
structure MarkovResult where
  string : JStr
  score : Int
  refs : List MarkovInputData
  tries : Nat
  deriving DecidableEq

/-- The distinct failure modes of `generate`: the empty-corpus error, the
runtime `TypeError` from dereferencing the non-null-asserted missing start
fragment (named `NoFragmentError` by the specification), and the exhausted
error carrying `tries - 1`. -/
inductive GenError where
  | emptyCorpus
  | noFragment
  | exhausted (tries : Nat)
  deriving DecidableEq

/-- The mutable locals of `generate`'s inner sentence-building loop, plus the
threaded randomness stream. -/
structure WalkState where
  arr : List MarkovFragment
  score : Int
  ended : Bool
  rands : List Nat
  deriving DecidableEq

/-- The inner loop of `generate` (`src/index.ts:556-581`), bounded by
`maxTries` steps.  Note the continuation lookup
`CorpusEntry.findOne({ where: { block: block.words } })` filters on the block
text only — it does not scope by the owning root. -/
def innerLoop (db : DB) (root : String) : Nat → WalkState → WalkState
  | 0, st => st
  | fuel + 1, st =>
    match st.arr.getLast? with
    | none => st
    | some block =>
      match db.entries.find? fun (e : CorpusEntry) => e.block == block.words with
      | none => st
      | some entry =>
        match sampleFragment db (fun f => f.corpusEntry == some entry.id) (st.rands.headD 0) with
        | none => { st with rands := st.rands.tail }
        | some state =>
          let arr2 := st.arr ++ [state]
          let score2 := st.score + ((state.words.length : Int) - 1)
          match db.fragments.find? fun (f : MarkovFragment) =>
              f.endWordMarkov == some root && f.words == state.words with
          | some _ => { arr := arr2, score := score2, ended := true, rands := st.rands.tail }
          | none =>
            innerLoop db root fuel
              { arr := arr2, score := score2, ended := false, rands := st.rands.tail }

/-- The outer retry loop of `generate` (`src/index.ts:546-611`), with
`remaining` iterations left and `tries` the current attempt number. -/
def outerLoop (db : DB) (root : String) (filt : Option (MarkovResult → Bool))
    (maxTries : Nat) : Nat → Nat → List Nat → Except GenError MarkovResult
  | 0, tries, _ => .error (.exhausted (tries - 1))
  | rem + 1, tries, rands =>
    match sampleFragment db (fun f => f.startWordMarkov == some root) (rands.headD 0) with
    | none => .error .noFragment
    | some startF =>
      let out := innerLoop db root maxTries
        { arr := [startF], score := 0, ended := false, rands := rands.tail }
      let sentence := jsTrim (jsJoin (out.arr.map fun f => f.words))
      let refs := db.inputData.filter fun r => (out.arr.map fun f => f.id).contains r.fragment
      let result : MarkovResult :=
        { string := sentence, score := out.score, refs := refs, tries := tries }
      if !out.ended || (match filt with | some f => !(f result) | none => false) then
        outerLoop db root filt maxTries rem (tries + 1) out.rands
      else
        .ok result

/-- `generate` (`src/index.ts:529-612`): `options.maxTries ? options.maxTries
: 10` treats `0` as falsy, so `maxTries` is always at least 1. -/
def generate (db : DB) (root : String) (maxTriesOpt : Option Nat)
    (filt : Option (MarkovResult → Bool)) (rands : List Nat) :
    Except GenError MarkovResult :=
  let corpusSize := (db.entries.filter fun e => e.markov == root).length
  if corpusSize ≤ 0 then .error .emptyCorpus
  else
    let maxTries := match maxTriesOpt with
      | some n => if n = 0 then 10 else n
      | none => 10
    outerLoop db root filt maxTries maxTries 1 rands

/-- A legacy ref record: a plain JS object, an ordered field map. -/
abbrev V3Ref := List (String × JStr)

/-- A legacy fragment record: its word window plus its ref records. -/
structure V3Fragment where
  words : JStr
  refs : List V3Ref
  deriving DecidableEq

/-- The legacy corpus: an ordered map from block text to fragment records. -/
abbrev V3Corpus := List (JStr × List V3Fragment)

/-- The ref conversion inside `extractImportV3Fragments`
(`src/index.ts:243-252`): `const { string } = ref` reads the `string` field
(leaving `undefined` when absent), `delete customData.string` keeps the rest,
and `custom` is set only when the rest is non-empty. -/
def importV3Ref (db : DB) (fragmentId : Nat) (ref : V3Ref) : DB :=
  let s := (ref.find? fun kv => kv.1 == "string").map Prod.snd
  let customData := ref.filter fun kv => kv.1 != "string"
  db.saveRef fragmentId s (if customData.length ≠ 0 then some customData else none)

/-- `extractImportV3Fragments` for a `corpusEntry` foreign key
(`src/index.ts:228-261`): each import fragment becomes a fresh
`MarkovFragment` linked to the entry, with its refs converted by
`importV3Ref`.  Batched saves are modelled as immediate saves in creation
order. -/
def importV3Fragments (db : DB) (entryId : Nat) (importFragments : List V3Fragment) : DB :=
  importFragments.foldl
    (fun db importFragment =>
      let (db, fragment) := db.saveFragment importFragment.words none none (some entryId)
      importFragment.refs.foldl (fun db ref => importV3Ref db fragment.id ref) db)
    db

/-- `saveImportV3Corpus` (`src/index.ts:275-297`): each map key becomes a
`CorpusEntry` owned by the current root; its list items become child
fragments. -/
def saveImportV3Corpus (db : DB) (root : String) (importCorpus : V3Corpus) : DB :=
  importCorpus.foldl
    (fun db kv =>
      let (db, entry) := db.saveEntry root kv.1
      importV3Fragments db entry.id kv.2)
    db

/-- Store with two roots, each owning an entry for the block `"a b"`; root
`"2"`'s entry was created first.  Root `"1"` owns the start fragment `"a b"`,
the end fragment `"x y"`, and an entry `"a b"` whose only child is `"c d"`;
root `"2"`'s entry `"a b"` has the single child `"x y"`. -/
def dbCross : DB :=
  { nextId := 6,
    entries := [{ id := 0, markov := "2", block := "a b".toList },
                { id := 1, markov := "1", block := "a b".toList }],
    fragments := [{ id := 2, words := "a b".toList, startWordMarkov := some "1" },
                  { id := 3, words := "x y".toList, corpusEntry := some 0 },
                  { id := 4, words := "c d".toList, corpusEntry := some 1 },
                  { id := 5, words := "x y".toList, endWordMarkov := some "1" }] }

/-- Ingest the sentence `"a b c d"` twice into a fresh store (state size 2). -/
def ingestTwice : Except AddErr DB :=
  (addData "1" 2 {} [.str "a b c d".toList]).bind fun db =>
    addData "1" 2 db [.str "a b c d".toList]

/-- Ingest two sentences sharing their start words into a fresh store (state
size 2). -/
def ingestSharedStart : Except AddErr DB :=
  (addData "1" 2 {} [.str "a b x y".toList]).bind fun db =>
    addData "1" 2 db [.str "a b z w".toList]

/-- Single-root store whose only generation outcome is the chain
`"a b" → "c d"`: entry `"a b"` with sole child `"c d"`, which is also the end
fragment. -/
def dbScore : DB :=
  { nextId := 4,
    entries := [{ id := 0, markov := "1", block := "a b".toList }],
    fragments := [{ id := 1, words := "a b".toList, startWordMarkov := some "1" },
                  { id := 2, words := "c d".toList, corpusEntry := some 0 },
                  { id := 3, words := "c d".toList, endWordMarkov := some "1" }] }

/-- Like `dbScore`, but the corpus child fragment carries two references with
the same original string. -/
def dbDupRefs : DB :=
  { nextId := 6,
    entries := [{ id := 0, markov := "1", block := "a b".toList }],
    fragments := [{ id := 1, words := "a b".toList, startWordMarkov := some "1" },
                  { id := 2, words := "c d".toList, corpusEntry := some 0 },
                  { id := 3, words := "c d".toList, endWordMarkov := some "1" }],
    inputData := [{ id := 4, fragment := 2, string := some "s t u v".toList },
                  { id := 5, fragment := 2, string := some "s t u v".toList }] }

/-- The legacy corpus of the claim, with the ref record keyed `text`. -/
def v3TextCorpus : V3Corpus :=
  [("a b".toList, [{ words := "c d".toList, refs := [[("text", "a b c d".toList)]] }])]

/-- The legacy corpus with the ref record keyed `string`, the field the code
actually reads. -/
def v3StringCorpus : V3Corpus :=
  [("a b".toList, [{ words := "c d".toList, refs := [[("string", "a b c d".toList)]] }])]

/-- Store whose root `"1"` owns one entry but no start fragment at all. -/
def dbNoStart : DB :=
  { nextId := 1,
    entries := [{ id := 0, markov := "1", block := "a b".toList }] }

/-- Single-root store used to exercise the retry loop: one entry, one start
fragment, one corpus child which is also an end fragment. -/
def dbRetry : DB :=
  { nextId := 4,
    entries := [{ id := 0, markov := "1", block := "a b".toList }],
    fragments := [{ id := 1, words := "a b".toList, startWordMarkov := some "1" },
                  { id := 2, words := "c d".toList, corpusEntry := some 0 },
                  { id := 3, words := "c d".toList, endWordMarkov := some "1" }] }

/-- Copy of the `dbScore` shape for instantiating the amended score theorem. -/
def dbScoreW : DB :=
  { nextId := 4,
    entries := [{ id := 0, markov := "1", block := "a b".toList }],
    fragments := [{ id := 1, words := "a b".toList, startWordMarkov := some "1" },
                  { id := 2, words := "c d".toList, corpusEntry := some 0 },
                  { id := 3, words := "c d".toList, endWordMarkov := some "1" }] }

/-- Copy of the `dbDupRefs` shape for instantiating the amended refs
theorem. -/
def dbDupRefsW : DB :=
  { nextId := 6,
    entries := [{ id := 0, markov := "1", block := "a b".toList }],
    fragments := [{ id := 1, words := "a b".toList, startWordMarkov := some "1" },
                  { id := 2, words := "c d".toList, corpusEntry := some 0 },
                  { id := 3, words := "c d".toList, endWordMarkov := some "1" }],
    inputData := [{ id := 4, fragment := 2, string := some "s t u v".toList },
                  { id := 5, fragment := 2, string := some "s t u v".toList }] }

/-- Single-root store for instantiating the structural-termination theorem:
all fragment word windows are space-normalized two-word strings. -/
def dbEnds : DB :=
  { nextId := 4,
    entries := [{ id := 0, markov := "1", block := "a b".toList }],
    fragments := [{ id := 1, words := "a b".toList, startWordMarkov := some "1" },
                  { id := 2, words := "c d".toList, corpusEntry := some 0 },
                  { id := 3, words := "c d".toList, endWordMarkov := some "1" }] }

/-- The concrete result produced by `generate` on `dbScoreW`. -/
def resScoreW : MarkovResult :=
  { string := "a b c d".toList, score := 2, refs := [], tries := 1 }

/-- The concrete result produced by `generate` on `dbDupRefsW`. -/
def resDupRefsW : MarkovResult :=
  { string := "a b c d".toList, score := 2,
    refs := [{ id := 4, fragment := 2, string := some "s t u v".toList },
             { id := 5, fragment := 2, string := some "s t u v".toList }],
    tries := 1 }

/-- The concrete result produced by `generate` on `dbEnds`. -/
def resEnds : MarkovResult :=
  { string := "a b c d".toList, score := 2, refs := [], tries := 1 }

/-- C1 (counter-evidence, code bug): on `dbCross`, `generate` called on root
`"1"` returns `"a b x y"` — its chain was extended through the entry owned by
root `"2"` (the continuation lookup filters on the block text only), even
though root `"1"`'s own entry for `"a b"` has the single child `"c d"`. -/
theorem generate_entry_lookup_ignores_root :
    generate dbCross "1" none none [0, 0] =
      .ok { string := "a b x y".toList, score := 2, refs := [], tries := 1 } ∧
    (dbCross.entries.filter fun e => e.markov == "1") =
      [{ id := 1, markov := "1", block := "a b".toList }] ∧
    ((dbCross.fragments.filter fun f => f.corpusEntry == some 1).map fun f => f.words) =
      ["c d".toList] ∧
    ((dbCross.fragments.filter fun f => f.corpusEntry == some 0).map fun f => f.words) =
      ["x y".toList] ∧
    (dbCross.entries.find? fun e => e.id == 0).map (fun e => e.markov) = some "2" := by
  refine ⟨rfl, rfl, rfl, rfl, rfl⟩

/-- C2 (counter-evidence, code bug): re-ingesting `"a b c d"` creates a second
Reference for the same `(fragment, string)` pair on the corpus child fragment
(id 5, words `"c d"`), and ingesting a second sentence `"a b z w"` that shares
the start fragment `"a b"` (id 0) creates no Reference for the new
`(fragment, string)` pair at all. -/
theorem buildCorpus_reference_uniqueness_bug :
    (ingestTwice.map fun db =>
      (db.inputData.filter fun r =>
        r.fragment == 5 && r.string == some "a b c d".toList).length) = .ok 2 ∧
    (ingestTwice.map fun db =>
      (db.fragments.find? fun f => f.id == 5).map fun f => (f.words, f.corpusEntry)) =
      .ok (some ("c d".toList, some 4)) ∧
    (ingestSharedStart.map fun db =>
      (db.inputData.filter fun r =>
        r.fragment == 0 && r.string == some "a b z w".toList).length) = .ok 0 ∧
    (ingestSharedStart.map fun db =>
      (db.fragments.find? fun f => f.id == 0).map fun f => (f.words, f.startWordMarkov)) =
      .ok (some ("a b".toList, some "1")) := by
  refine ⟨rfl, rfl, rfl, rfl⟩

/-- C3 (counterexample): on `dbScore`, `generate` returns score 2 (the
character length of `"c d"` minus 1), but the chain's only continuation
fragment has 2 words, so the claimed per-step contribution (words minus 1)
sums to 1 — and 2 ≠ 1. -/
theorem generate_score_not_word_count :
    (generate dbScore "1" none none [0, 0]).map (fun r => r.score) = .ok 2 ∧
    (((innerLoop dbScore "1" 10
          { arr := [{ id := 1, words := "a b".toList, startWordMarkov := some "1" }],
            score := 0, ended := false, rands := [0] }).arr.drop 1).map
        fun f => ((jsSplit f.words).length : Int) - 1) = [1] ∧
    (2 : Int) ≠ 1 := by
  refine ⟨rfl, rfl, by decide⟩

/-- C4 (counterexample): on `dbDupRefs`, `generate` returns a refs list with
two elements sharing the original string `"s t u v"` — the current code
fetches all References of the chain's fragments with no deduplication by
string. -/
theorem generate_refs_not_deduped :
    (generate dbDupRefs "1" none none [0, 0]).map
        (fun r => r.refs.map fun x => (x.fragment, x.string)) =
      .ok [(2, some "s t u v".toList), (2, some "s t u v".toList)] ∧
    ¬ ([some "s t u v".toList, some "s t u v".toList] : List (Option JStr)).Nodup := by
  refine ⟨rfl, by decide⟩

/-- C6 (counterexample): importing the legacy corpus whose ref record is keyed
`text` produces a Reference whose original string is `undefined` (the code
destructures `ref.string`), with the `text` field absorbed into the custom
payload — not a Reference with string `"a b c d"`. -/
theorem importV3_text_field_not_string :
    (saveImportV3Corpus {} "1" v3TextCorpus).inputData.map
        (fun r => (r.string, r.custom)) =
      [(none, some [("text", "a b c d".toList)])] ∧
    (none : Option JStr) ≠ some "a b c d".toList := by
  refine ⟨rfl, by decide⟩

/-- C6 (amended): importing the legacy corpus whose ref record is keyed
`string` yields exactly one Entry `"a b"` owned by the root, one child
Fragment `"c d"` linked to it, and one Reference with string `"a b c d"` and
no custom payload. -/
theorem importV3_string_field_extracts_reference :
    saveImportV3Corpus {} "1" v3StringCorpus =
      { nextId := 3,
        entries := [{ id := 0, markov := "1", block := "a b".toList }],
        fragments := [{ id := 1, words := "c d".toList, corpusEntry := some 0 }],
        inputData := [{ id := 2, fragment := 1, string := some "a b c d".toList }] } := by
  rfl

/-- C9 (counterexample): the heterogeneous input
`[{string: "a b c d"}, "x y"]` does not raise the typed `InvalidInputError` —
the shape check reads only the first element, the whole array is cast to
structured items, and processing the bare string element (whose `string`
property is `undefined`) throws an untyped `TypeError` instead. -/
theorem addData_heterogeneous_not_typed_error :
    addData "1" 2 {} [.obj (some "a b c d".toList) none, .str "x y".toList] =
      .error .typeError ∧
    AddErr.typeError ≠ AddErr.invalidInput := by
  refine ⟨rfl, by decide⟩

/-- C10: calling `addData` on an empty input sequence always throws: the shape
check reads `rawData[0]` (`undefined`), `isString` fails, and
`Object.hasOwnProperty.call(undefined, 'string')` raises a `TypeError`; the
call never returns successfully with the store unchanged. -/
theorem addData_empty_input_throws (root : String) (stateSize : Nat) (db : DB) :
    addData root stateSize db [] = .error .typeError := rfl

/-- A successful sample returns a stored fragment satisfying the query
condition. -/
theorem sampleFragment_eq_some {db : DB} {p : MarkovFragment → Bool} {n : Nat}
    {f : MarkovFragment} (h : sampleFragment db p n = some f) :
    f ∈ db.fragments ∧ p f = true := by
  unfold sampleFragment at h
  have hm := List.get?_mem h
  exact ⟨(List.mem_filter.mp hm).1, (List.mem_filter.mp hm).2⟩

/-- Sampling among a non-empty match set always returns a fragment. -/
theorem sampleFragment_of_ne_nil {db : DB} {p : MarkovFragment → Bool} (n : Nat)
    (h : db.fragments.filter p ≠ []) : ∃ f, sampleFragment db p n = some f := by
  unfold sampleFragment
  have hlen : 0 < (db.fragments.filter p).length := List.length_pos.mpr h
  exact ⟨_, List.get?_eq_get (Nat.mod_lt _ hlen)⟩

/-- Sampling among an empty match set returns none. -/
theorem sampleFragment_of_nil {db : DB} {p : MarkovFragment → Bool} (n : Nat)
    (h : db.fragments.filter p = []) : sampleFragment db p n = none := by
  unfold sampleFragment
  rw [h]
  rfl

/-- When the root has no start fragments, the first body of the retry loop
hits the missing sample. -/
theorem outerLoop_noFragment {db : DB} {root : String} {filt : Option (MarkovResult → Bool)}
    {m rem tries : Nat} {rands : List Nat}
    (hstart : db.fragments.filter (fun f => f.startWordMarkov == some root) = []) :
    outerLoop db root filt m (rem + 1) tries rands = .error .noFragment := by
  unfold outerLoop
  rw [sampleFragment_of_nil _ hstart]

/-- C5: on every store where the root owns at least one Entry but zero start
Fragments, `generate` fails with the missing-start-fragment error (the
`NoFragmentError` of the specification, realised in the code as the
`TypeError` thrown when the non-null-asserted sample is dereferenced) — and
with no other outcome. -/
theorem generate_no_start_fragment_error (db : DB) (root : String) (mt : Option Nat)
    (filt : Option (MarkovResult → Bool)) (rands : List Nat)
    (hent : db.entries.filter (fun e => e.markov == root) ≠ [])
    (hstart : db.fragments.filter (fun f => f.startWordMarkov == some root) = []) :
    generate db root mt filt rands = .error .noFragment := by
  unfold generate
  have h1 : ¬ ((db.entries.filter fun e => e.markov == root).length ≤ 0) := by
    simpa [Nat.le_zero, List.length_eq_zero] using hent
  rw [if_neg h1]
  rcases mt with _ | n
  · exact outerLoop_noFragment hstart
  · by_cases hn : n = 0
    · simp only [hn, if_pos rfl]
      exact outerLoop_noFragment hstart
    · simp only [if_neg hn]
      obtain ⟨k, rfl⟩ := Nat.exists_eq_succ_of_ne_zero hn
      exact outerLoop_noFragment hstart

/-- Witness for C5 on the concrete store `dbNoStart`. -/
theorem generate_no_start_fragment_error_witness :
    dbNoStart.entries.filter (fun e => e.markov == "1") ≠ [] ∧
    dbNoStart.fragments.filter (fun f => f.startWordMarkov == some "1") = [] ∧
    generate dbNoStart "1" none none [] = .error .noFragment :=
  ⟨by decide, rfl, generate_no_start_fragment_error dbNoStart "1" none none []
    (by decide) rfl⟩

/-- With an always-false filter, every attempt of the retry loop is discarded
and the loop runs to exhaustion, counting its attempts. -/
theorem outerLoop_filter_false {db : DB} {root : String} {m : Nat}
    (hstart : db.fragments.filter (fun f => f.startWordMarkov == some root) ≠ []) :
    ∀ (rem tries : Nat) (rands : List Nat),
      outerLoop db root (some fun _ => false) m rem tries rands =
        .error (.exhausted (rem + tries - 1)) := by
  intro rem
  induction rem with
  | zero =>
    intro tries rands
    simp [outerLoop]
  | succ k ih =>
    intro tries rands
    unfold outerLoop
    obtain ⟨f, hf⟩ := sampleFragment_of_ne_nil (rands.headD 0) hstart
    rw [hf]
    simp only [Bool.not_false, Bool.or_true, if_true]
    rw [ih (tries + 1)]
    have h2 : k + (tries + 1) - 1 = k + 1 + tries - 1 := by omega
    rw [h2]

/-- C7: for every N ≥ 1, on any store whose root has at least one Entry and at
least one start Fragment, `generate` with `maxTries = N` and an always-false
filter fails with the exhausted error carrying N, after exactly N attempts of
the retry loop. -/
theorem generate_exhausts_maxTries (db : DB) (root : String) (rands : List Nat)
    (N : Nat) (hN : 1 ≤ N)
    (hent : db.entries.filter (fun e => e.markov == root) ≠ [])
    (hstart : db.fragments.filter (fun f => f.startWordMarkov == some root) ≠ []) :
    generate db root (some N) (some fun _ => false) rands = .error (.exhausted N) := by
  unfold generate
  have h1 : ¬ ((db.entries.filter fun e => e.markov == root).length ≤ 0) := by
    simpa [Nat.le_zero, List.length_eq_zero] using hent
  rw [if_neg h1]
  have hN0 : N ≠ 0 := by omega
  simp only [if_neg hN0]
  rw [outerLoop_filter_false hstart N 1 rands]
  have h2 : N + 1 - 1 = N := by omega
  rw [h2]

/-- Witness for C7 on the concrete store `dbRetry` with N = 3. -/
theorem generate_exhausts_maxTries_witness :
    (1 ≤ 3 ∧
      dbRetry.entries.filter (fun e => e.markov == "1") ≠ [] ∧
      dbRetry.fragments.filter (fun f => f.startWordMarkov == some "1") ≠ []) ∧
    generate dbRetry "1" (some 3) (some fun _ => false) [0] = .error (.exhausted 3) :=
  ⟨⟨by decide, by decide, by decide⟩,
    generate_exhausts_maxTries dbRetry "1" [0] 3 (by decide) (by decide) (by decide)⟩

/-- Invariant of the inner sentence-building loop: it only appends stored
fragments, the score grows by (character length − 1) per appended fragment,
and it reports `ended` only when the last appended fragment's words equal the
words of some end fragment of the root. -/
theorem innerLoop_spec (db : DB) (root : String) :
    ∀ (fuel : Nat) (st : WalkState), st.ended = false →
      (∃ ext, (innerLoop db root fuel st).arr = st.arr ++ ext ∧
        ∀ f ∈ ext, f ∈ db.fragments) ∧
      (innerLoop db root fuel st).score = st.score +
        (((innerLoop db root fuel st).arr.drop st.arr.length).map
          fun f => (f.words.length : Int) - 1).sum ∧
      ((innerLoop db root fuel st).ended = true →
        ∃ lastF, (innerLoop db root fuel st).arr.getLast? = some lastF ∧
          ∃ endF, endF ∈ db.fragments ∧ endF.endWordMarkov = some root ∧
            endF.words = lastF.words) := by
  intro fuel
  induction fuel with
  | zero =>
    intro st hend
    refine ⟨⟨[], by simp [innerLoop], by simp⟩, by simp [innerLoop], ?_⟩
    intro h
    rw [innerLoop] at h
    rw [hend] at h
    exact absurd h (by decide)
  | succ k ih =>
    intro st hend
    cases hlast : st.arr.getLast? with
    | none =>
      simp only [innerLoop, hlast]
      refine ⟨⟨[], by simp, by simp⟩, by simp, ?_⟩
      intro h
      rw [hend] at h
      exact absurd h (by decide)
    | some block =>
      cases hentry : db.entries.find? fun (e : CorpusEntry) => e.block == block.words with
      | none =>
        simp only [innerLoop, hlast, hentry]
        refine ⟨⟨[], by simp, by simp⟩, by simp, ?_⟩
        intro h
        rw [hend] at h
        exact absurd h (by decide)
      | some entry =>
        cases hsample : sampleFragment db (fun f => f.corpusEntry == some entry.id)
            (st.rands.headD 0) with
        | none =>
          simp only [innerLoop, hlast, hentry, hsample]
          refine ⟨⟨[], by simp, by simp⟩, by simp, ?_⟩
          intro h
          rw [hend] at h
          exact absurd h (by decide)
        | some state =>
          have hstate : state ∈ db.fragments := (sampleFragment_eq_some hsample).1
          cases hendf : db.fragments.find? fun (f : MarkovFragment) =>
              f.endWordMarkov == some root && f.words == state.words with
          | some e0 =>
            simp only [innerLoop, hlast, hentry, hsample, hendf]
            have he0 : e0 ∈ db.fragments := List.mem_of_find?_eq_some hendf
            have hp := List.find?_some hendf
            rw [Bool.and_eq_true] at hp
            refine ⟨⟨[state], rfl, by simpa using hstate⟩, ?_, ?_⟩
            · simp [List.drop_left]
            · intro _
              refine ⟨state, List.getLast?_concat _, e0, he0, ?_, ?_⟩
              · exact eq_of_beq hp.1
              · exact eq_of_beq hp.2
          | none =>
            simp only [innerLoop, hlast, hentry, hsample, hendf]
            have spec := ih
              { arr := st.arr ++ [state],
                score := st.score + ((state.words.length : Int) - 1),
                ended := false,
                rands := st.rands.tail } rfl
            obtain ⟨⟨ext, harr, hmem⟩, hscore, hended⟩ := spec
            refine ⟨⟨state :: ext, ?_, ?_⟩, ?_, hended⟩
            · rw [harr]
              simp
            · intro f hf
              cases hf with
              | head => exact hstate
              | tail _ hf2 => exact hmem _ hf2
            · rw [hscore, harr]
              have hd1 : ((st.arr ++ [state]) ++ ext).drop st.arr.length = state :: ext := by
                rw [List.append_assoc]
                rw [List.drop_left]
                rfl
              have hd2 : ((st.arr ++ [state]) ++ ext).drop (st.arr ++ [state]).length = ext :=
                List.drop_left _ _
              rw [hd1, hd2]
              simp only [List.map_cons, List.sum_cons]
              ring

/-- Any successful return of the retry loop is characterised by a chain of
stored fragments: the text is the trimmed join of the chain's word strings,
the score sums (character length − 1) over the continuation fragments, the
refs are exactly the stored References attached to the chain's fragments (in
store order), and the chain's last fragment matches an end fragment of the
root. -/
theorem outerLoop_ok_spec {db : DB} {root : String} {filt : Option (MarkovResult → Bool)}
    {m : Nat} :
    ∀ (rem tries : Nat) (rands : List Nat) (r : MarkovResult),
      outerLoop db root filt m rem tries rands = .ok r →
      ∃ arr : List MarkovFragment, arr ≠ [] ∧ (∀ g ∈ arr, g ∈ db.fragments) ∧
        r.string = jsTrim (jsJoin (arr.map fun f => f.words)) ∧
        r.score = ((arr.drop 1).map fun f => (f.words.length : Int) - 1).sum ∧
        r.refs = db.inputData.filter (fun x => (arr.map fun f => f.id).contains x.fragment) ∧
        ∃ lastF, arr.getLast? = some lastF ∧
          ∃ endF, endF ∈ db.fragments ∧ endF.endWordMarkov = some root ∧
            endF.words = lastF.words := by
  intro rem
  induction rem with
  | zero =>
    intro tries rands r h
    exact absurd h (by simp [outerLoop])
  | succ k ih =>
    intro tries rands r h
    rw [outerLoop] at h
    cases hs : sampleFragment db (fun f => f.startWordMarkov == some root) (rands.headD 0) with
    | none =>
      rw [hs] at h
      exact absurd h (by simp)
    | some startF =>
      rw [hs] at h
      simp only [] at h
      split at h
      · exact ih _ _ _ h
      · rename_i hcond
        have hdone := Except.ok.inj h
        have spec := innerLoop_spec db root m
          { arr := [startF], score := 0, ended := false, rands := rands.tail } rfl
        obtain ⟨⟨ext, harr, hmem⟩, hscore, hended⟩ := spec
        have hend2 : (innerLoop db root m
            { arr := [startF], score := 0, ended := false, rands := rands.tail }).ended
            = true := by
          by_contra hc
          rw [Bool.not_eq_true] at hc
          rw [hc] at hcond
          exact hcond (by simp)
        refine ⟨(innerLoop db root m
          { arr := [startF], score := 0, ended := false, rands := rands.tail }).arr,
          ?_, ?_, ?_, ?_, ?_, hended hend2⟩
        · rw [harr]
          simp
        · intro g hg
          rw [harr] at hg
          cases hg with
          | head => exact (sampleFragment_eq_some hs).1
          | tail _ hg2 => exact hmem _ hg2
        · rw [← hdone]
        · rw [← hdone]
          simpa using hscore
        · rw [← hdone]

/-- Specialisation of `outerLoop_ok_spec` to `generate` itself. -/
theorem generate_ok_spec {db : DB} {root : String} {mt : Option Nat}
    {filt : Option (MarkovResult → Bool)} {rands : List Nat} {r : MarkovResult}
    (h : generate db root mt filt rands = .ok r) :
    ∃ arr : List MarkovFragment, arr ≠ [] ∧ (∀ g ∈ arr, g ∈ db.fragments) ∧
      r.string = jsTrim (jsJoin (arr.map fun f => f.words)) ∧
      r.score = ((arr.drop 1).map fun f => (f.words.length : Int) - 1).sum ∧
      r.refs = db.inputData.filter (fun x => (arr.map fun f => f.id).contains x.fragment) ∧
      ∃ lastF, arr.getLast? = some lastF ∧
        ∃ endF, endF ∈ db.fragments ∧ endF.endWordMarkov = some root ∧
          endF.words = lastF.words := by
  rw [generate.eq_def] at h
  simp only [] at h
  split at h
  · exact absurd h (by simp)
  · exact outerLoop_ok_spec _ _ _ _ h

/-- C3 (amended): every successful generation's score equals the sum, over
the appended continuation fragments of its chain (excluding the initial start
fragment), of the character length of the fragment's joined words string
minus 1 — `state.words` is a string, so `.length` counts characters, not
words. -/
theorem generate_score_char_length (db : DB) (root : String) (mt : Option Nat)
    (filt : Option (MarkovResult → Bool)) (rands : List Nat) (r : MarkovResult)
    (h : generate db root mt filt rands = .ok r) :
    ∃ arr : List MarkovFragment, (∀ g ∈ arr, g ∈ db.fragments) ∧
      r.string = jsTrim (jsJoin (arr.map fun f => f.words)) ∧
      r.score = ((arr.drop 1).map fun f => (f.words.length : Int) - 1).sum := by
  obtain ⟨arr, _, hmem, hstr, hsc, _⟩ := generate_ok_spec h
  exact ⟨arr, hmem, hstr, hsc⟩

/-- Witness for the amended C3 on the concrete store `dbScoreW`. -/
theorem generate_score_char_length_witness :
    ∃ arr : List MarkovFragment, (∀ g ∈ arr, g ∈ dbScoreW.fragments) ∧
      resScoreW.string = jsTrim (jsJoin (arr.map fun f => f.words)) ∧
      resScoreW.score = ((arr.drop 1).map fun f => (f.words.length : Int) - 1).sum :=
  generate_score_char_length dbScoreW "1" none none [0, 0] resScoreW rfl

/-- C4 (amended): every successful generation's refs field is exactly the
list of stored References attached to the fragments of its chain, in store
order, with no deduplication by original string. -/
theorem generate_refs_are_chain_refs (db : DB) (root : String) (mt : Option Nat)
    (filt : Option (MarkovResult → Bool)) (rands : List Nat) (r : MarkovResult)
    (h : generate db root mt filt rands = .ok r) :
    ∃ arr : List MarkovFragment, (∀ g ∈ arr, g ∈ db.fragments) ∧
      r.string = jsTrim (jsJoin (arr.map fun f => f.words)) ∧
      r.refs = db.inputData.filter
        (fun x => (arr.map fun f => f.id).contains x.fragment) := by
  obtain ⟨arr, _, hmem, hstr, _, hrefs, _⟩ := generate_ok_spec h
  exact ⟨arr, hmem, hstr, hrefs⟩

/-- Witness for the amended C4 on the concrete store `dbDupRefsW`. -/
theorem generate_refs_are_chain_refs_witness :
    ∃ arr : List MarkovFragment, (∀ g ∈ arr, g ∈ dbDupRefsW.fragments) ∧
      resDupRefsW.string = jsTrim (jsJoin (arr.map fun f => f.words)) ∧
      resDupRefsW.refs = dbDupRefsW.inputData.filter
        (fun x => (arr.map fun f => f.id).contains x.fragment) :=
  generate_refs_are_chain_refs dbDupRefsW "1" none none [0, 0] resDupRefsW rfl

/-- An item whose `string` slot is not a string throws at `line.split`. -/
theorem processItem_none {root : String} {ss : Nat} {db : DB} {item : AddDataProps}
    (h : item.string = none) : processItem root ss db item = .error .typeError := by
  unfold processItem
  rw [h]

/-- An item whose `string` slot is a string is processed without error. -/
theorem processItem_some_ok {root : String} {ss : Nat} {db : DB} {item : AddDataProps}
    (line : JStr) (h : item.string = some line) :
    ∃ db2, processItem root ss db item = .ok db2 := by
  unfold processItem
  rw [h]
  exact ⟨_, rfl⟩

/-- If any item in the batch has a non-string `string` slot, `buildCorpus`
throws the runtime `TypeError` when it reaches it. -/
theorem buildCorpus_error_of_none {root : String} {ss : Nat} :
    ∀ (items : List AddDataProps) (db : DB), (∃ it ∈ items, it.string = none) →
      buildCorpus root ss db items = .error .typeError := by
  intro items
  induction items with
  | nil =>
    intro db h
    rcases h with ⟨it, hmem, _⟩
    cases hmem
  | cons a l ih =>
    intro db h
    unfold buildCorpus
    rw [List.foldlM_cons]
    cases hstr : a.string with
    | none =>
      rw [processItem_none hstr]
      rfl
    | some line =>
      obtain ⟨db2, hok⟩ := processItem_some_ok line hstr
      rw [hok]
      show buildCorpus root ss db2 l = _
      apply ih
      rcases h with ⟨it, hmem, hnone⟩
      cases hmem with
      | head =>
        rw [hstr] at hnone
        cases hnone
      | tail _ hm => exact ⟨it, hm, hnone⟩

/-- The only error `buildCorpus` can throw is the runtime `TypeError`. -/
theorem buildCorpus_error_eq {root : String} {ss : Nat} :
    ∀ (items : List AddDataProps) (db : DB) (e : AddErr),
      buildCorpus root ss db items = .error e → e = .typeError := by
  intro items
  induction items with
  | nil =>
    intro db e h
    exact absurd h (by simp [buildCorpus, List.foldlM, pure, Except.pure])
  | cons a l ih =>
    intro db e h
    unfold buildCorpus at h
    rw [List.foldlM_cons] at h
    cases hstr : a.string with
    | none =>
      rw [processItem_none hstr] at h
      have := Except.error.inj h
      exact this.symm
    | some line =>
      obtain ⟨db2, hok⟩ := processItem_some_ok line hstr
      rw [hok] at h
      exact ih db2 e h

/-- C9 (amended): on heterogeneous input (mixing bare strings and structured
items), `addData` always fails — but it raises the typed `InvalidInputError`
exactly when the first element is a structured item lacking the `string`
field; in every other heterogeneous case the failure is the untyped runtime
`TypeError` thrown while processing the offending element. -/
theorem addData_heterogeneous_always_fails (root : String) (ss : Nat) (db : DB)
    (rawData : List RawItem)
    (hs : ∃ a ∈ rawData, a.isStr = true) (ho : ∃ b ∈ rawData, b.isStr = false) :
    (∃ e, addData root ss db rawData = .error e) ∧
    (addData root ss db rawData = .error .invalidInput ↔
      ∃ c rest, rawData = .obj none c :: rest) := by
  cases rawData with
  | nil =>
    rcases hs with ⟨a, ha, _⟩
    cases ha
  | cons first rest =>
    cases first with
    | str s =>
      have herr : buildCorpus root ss db ((RawItem.str s :: rest).map castAsStrings) =
          .error .typeError := by
        apply buildCorpus_error_of_none
        rcases ho with ⟨b, hb, hbno⟩
        cases b with
        | str s2 => simp [RawItem.isStr] at hbno
        | obj s2 c2 => exact ⟨castAsStrings (.obj s2 c2), List.mem_map_of_mem _ hb, rfl⟩
      refine ⟨⟨.typeError, herr⟩, ?_, ?_⟩
      · intro h
        rw [show addData root ss db (RawItem.str s :: rest) =
            buildCorpus root ss db ((RawItem.str s :: rest).map castAsStrings) from rfl] at h
        rw [herr] at h
        simp at h
      · rintro ⟨c, rest2, heq⟩
        simp at heq
    | obj sf cf =>
      cases sf with
      | some v =>
        have herr : buildCorpus root ss db
            ((RawItem.obj (some v) cf :: rest).map castAsObjects) = .error .typeError := by
          apply buildCorpus_error_of_none
          rcases hs with ⟨a, ha, hastr⟩
          cases a with
          | obj s2 c2 => simp [RawItem.isStr] at hastr
          | str s2 =>
            refine ⟨castAsObjects (.str s2), List.mem_map_of_mem _ ha, rfl⟩
        refine ⟨⟨.typeError, herr⟩, ?_, ?_⟩
        · intro h
          rw [show addData root ss db (RawItem.obj (some v) cf :: rest) =
              buildCorpus root ss db ((RawItem.obj (some v) cf :: rest).map castAsObjects)
              from rfl] at h
          rw [herr] at h
          simp at h
        · rintro ⟨c, rest2, heq⟩
          simp at heq
      | none =>
        refine ⟨⟨.invalidInput, rfl⟩, ?_, ?_⟩
        · intro _
          exact ⟨cf, rest, rfl⟩
        · intro _
          rfl

/-- Witness for the amended C9 on a concrete two-element heterogeneous
input. -/
theorem addData_heterogeneous_always_fails_witness :
    ((∃ a ∈ ([.str "a b".toList, .obj none none] : List RawItem), a.isStr = true) ∧
      (∃ b ∈ ([.str "a b".toList, .obj none none] : List RawItem), b.isStr = false)) ∧
    (∃ e, addData "1" 2 {} [.str "a b".toList, .obj none none] = .error e) ∧
    (addData "1" 2 {} [.str "a b".toList, .obj none none] = .error .invalidInput ↔
      ∃ c rest, ([.str "a b".toList, .obj none none] : List RawItem) = .obj none c :: rest) :=
  ⟨⟨by decide, by decide⟩,
    addData_heterogeneous_always_fails "1" 2 {} [.str "a b".toList, .obj none none]
      (by decide) (by decide)⟩

/-- `split(' ')` always yields at least one piece. -/
theorem jsSplit_ne_nil (s : JStr) : jsSplit s ≠ [] := by
  induction s with
  | nil => simp [jsSplit]
  | cons c rest ih =>
    by_cases hc : c = ' '
    · simp [jsSplit, hc]
    · simp only [jsSplit, if_neg hc]
      cases h : jsSplit rest with
      | nil => simp
      | cons w ws => simp

/-- `join(' ')` is a left inverse of `split(' ')`. -/
theorem jsJoin_jsSplit (s : JStr) : jsJoin (jsSplit s) = s := by
  induction s with
  | nil => rfl
  | cons c rest ih =>
    by_cases hc : c = ' '
    · subst hc
      simp only [jsSplit, if_pos rfl]
      obtain ⟨w, ws, hl⟩ := List.exists_cons_of_ne_nil (jsSplit_ne_nil rest)
      rw [hl]
      rw [hl] at ih
      show ' ' :: jsJoin (w :: ws) = ' ' :: rest
      rw [ih]
    · simp only [jsSplit, if_neg hc]
      obtain ⟨w, ws, hl⟩ := List.exists_cons_of_ne_nil (jsSplit_ne_nil rest)
      rw [hl]
      rw [hl] at ih
      cases ws with
      | nil =>
        show c :: w = c :: rest
        rw [show jsJoin [w] = w from rfl] at ih
        rw [ih]
      | cons v ws2 =>
        show (c :: w) ++ ' ' :: jsJoin (v :: ws2) = c :: rest
        rw [← ih]
        rfl

/-- Splitting after a leading space. -/
theorem jsSplit_cons_space (rest : JStr) : jsSplit (' ' :: rest) = [] :: jsSplit rest := by
  simp [jsSplit]

/-- Splitting after a leading non-space character. -/
theorem jsSplit_cons_of_ne (c : Char) (rest : JStr) (w : JStr) (ws : List JStr)
    (hc : c ≠ ' ') (hl : jsSplit rest = w :: ws) :
    jsSplit (c :: rest) = (c :: w) :: ws := by
  simp [jsSplit, if_neg hc, hl]

/-- Splitting distributes over a single-space join point. -/
theorem jsSplit_append_space (a b : JStr) :
    jsSplit (a ++ ' ' :: b) = jsSplit a ++ jsSplit b := by
  induction a with
  | nil => simp [jsSplit_cons_space, jsSplit]
  | cons c a2 ih =>
    by_cases hc : c = ' '
    · subst hc
      rw [List.cons_append, jsSplit_cons_space, jsSplit_cons_space, ih]
      rfl
    · obtain ⟨w, ws, hl⟩ := List.exists_cons_of_ne_nil (jsSplit_ne_nil a2)
      have hl2 : jsSplit (a2 ++ ' ' :: b) = w :: (ws ++ jsSplit b) := by
        rw [ih, hl]
        rfl
      rw [List.cons_append, jsSplit_cons_of_ne c _ w (ws ++ jsSplit b) hc hl2,
        jsSplit_cons_of_ne c _ w ws hc hl]
      rfl

/-- Splitting the join of a non-empty list of pieces concatenates the splits
of the pieces. -/
theorem jsSplit_jsJoin (L : List JStr) (h : L ≠ []) :
    jsSplit (jsJoin L) = (L.map jsSplit).flatten := by
  induction L with
  | nil => exact absurd rfl h
  | cons x xs ih =>
    cases xs with
    | nil => simp [jsJoin]
    | cons y ys =>
      show jsSplit (x ++ ' ' :: jsJoin (y :: ys)) = _
      rw [jsSplit_append_space, ih (by simp)]
      rfl

/-- A piece with no internal space splits to itself. -/
theorem jsSplit_of_no_space (t : JStr) (h : ' ' ∉ t) : jsSplit t = [t] := by
  induction t with
  | nil => rfl
  | cons c t2 ih =>
    have hc : ¬ c = ' ' := fun hcc => h (hcc ▸ List.mem_cons_self c t2)
    have ht2 := ih fun hm => h (List.mem_cons_of_mem c hm)
    simp only [jsSplit, if_neg hc, ht2]

/-- Join distributes over append of non-empty piece lists. -/
theorem jsJoin_append (A B : List JStr) (hA : A ≠ []) (hB : B ≠ []) :
    jsJoin (A ++ B) = jsJoin A ++ ' ' :: jsJoin B := by
  induction A with
  | nil => exact absurd rfl hA
  | cons a A2 ih =>
    cases A2 with
    | nil =>
      obtain ⟨b, B2, hBeq⟩ := List.exists_cons_of_ne_nil hB
      subst hBeq
      rfl
    | cons a2 A3 =>
      show a ++ ' ' :: jsJoin ((a2 :: A3) ++ B) =
        (a ++ ' ' :: jsJoin (a2 :: A3)) ++ ' ' :: jsJoin B
      rw [ih (by simp)]
      simp

/-- Joining piece-wise joins equals joining the flattened token list, for
non-empty pieces. -/
theorem jsJoin_map_join (TL : List (List JStr)) (hne : ∀ x ∈ TL, x ≠ []) (h : TL ≠ []) :
    jsJoin (TL.map jsJoin) = jsJoin TL.flatten := by
  induction TL with
  | nil => exact absurd rfl h
  | cons A TL2 ih =>
    cases TL2 with
    | nil =>
      show jsJoin [jsJoin A] = jsJoin ([A].flatten)
      rw [show ([A] : List (List JStr)).flatten = A ++ [] from rfl, List.append_nil]
      rfl
    | cons B TL3 =>
      have hA : A ≠ [] := hne A (by simp)
      have hB : B ≠ [] := hne B (by simp)
      have hjoin_ne : (B :: TL3).flatten ≠ [] := by
        obtain ⟨b, B2, hBeq⟩ := List.exists_cons_of_ne_nil hB
        simp [hBeq]
      show jsJoin (jsJoin A :: (B :: TL3).map jsJoin) = jsJoin (A ++ (B :: TL3).flatten)
      obtain ⟨w, ws, hm⟩ := List.exists_cons_of_ne_nil
        (show (B :: TL3).map jsJoin ≠ [] by simp)
      rw [hm]
      show jsJoin A ++ ' ' :: jsJoin (w :: ws) = _
      rw [← hm, ih (fun x hx => hne x (List.mem_cons_of_mem _ hx)) (by simp)]
      rw [jsJoin_append A _ hA hjoin_ne]

/-- `dropWhile` is the identity when the head fails the predicate. -/
theorem dropWhile_eq_self_of_head {α : Type} (l : List α) (p : α → Bool)
    (h : ∀ c, l.head? = some c → p c = false) : l.dropWhile p = l := by
  cases l with
  | nil => rfl
  | cons a l2 =>
    rw [List.dropWhile_cons, h a rfl]
    simp

/-- Trim is the identity on strings with non-whitespace edges. -/
theorem jsTrim_eq_self (s : JStr)
    (hh : ∀ c, s.head? = some c → c.isWhitespace = false)
    (hl : ∀ c, s.getLast? = some c → c.isWhitespace = false) : jsTrim s = s := by
  unfold jsTrim
  rw [dropWhile_eq_self_of_head s _ hh]
  rw [dropWhile_eq_self_of_head s.reverse _ fun c hc =>
    hl c (by rwa [List.head?_reverse] at hc)]
  exact List.reverse_reverse s

/-- A join headed by a non-empty piece is non-empty. -/
theorem jsJoin_ne_nil (T : List JStr) (t : JStr) (ts : List JStr) (h : T = t :: ts)
    (ht : t ≠ []) : jsJoin T ≠ [] := by
  subst h
  cases ts with
  | nil => exact ht
  | cons u ts2 =>
    show t ++ ' ' :: jsJoin (u :: ts2) ≠ []
    simp

/-- The head character of a join is the head of its first (non-empty)
piece. -/
theorem jsJoin_head? (t : JStr) (ts : List JStr) (ht : t ≠ []) :
    (jsJoin (t :: ts)).head? = t.head? := by
  cases ts with
  | nil => rfl
  | cons u ts2 =>
    show (t ++ ' ' :: jsJoin (u :: ts2)).head? = t.head?
    cases t with
    | nil => exact absurd rfl ht
    | cons c t2 => rfl

/-- The last character of a join of non-empty pieces is the last character of
one of its pieces. -/
theorem jsJoin_getLast?_mem (T : List JStr) (hT : T ≠ []) (hne : ∀ x ∈ T, x ≠ []) :
    ∃ t ∈ T, (jsJoin T).getLast? = t.getLast? := by
  induction T with
  | nil => exact absurd rfl hT
  | cons t ts ih =>
    cases ts with
    | nil => exact ⟨t, by simp, rfl⟩
    | cons u ts2 =>
      obtain ⟨t2, hmem, heq⟩ := ih (by simp) fun x hx => hne x (List.mem_cons_of_mem _ hx)
      refine ⟨t2, List.mem_cons_of_mem _ hmem, ?_⟩
      have h2 : jsJoin (u :: ts2) ≠ [] := jsJoin_ne_nil _ u ts2 rfl (hne u (by simp))
      show (t ++ ' ' :: jsJoin (u :: ts2)).getLast? = _
      rw [List.getLast?_append_cons t ' ' (jsJoin (u :: ts2))]
      rw [show (' ' :: jsJoin (u :: ts2)) = [' '] ++ jsJoin (u :: ts2) from rfl]
      rw [List.getLast?_append_of_ne_nil [' '] h2]
      exact heq

/-- Flattening a list of singletons is the identity. -/
theorem flatten_map_singleton {α : Type} (l : List α) :
    (l.map fun a => [a]).flatten = l := by
  induction l with
  | nil => rfl
  | cons a l2 ih => simp [ih]

/-- C8: every result returned by `generate` ends structurally — on any store
whose fragments all carry space-normalized words of exactly `stateSize`
non-empty whitespace-free tokens (as the Builder produces), the trailing
`stateSize`-word window of the returned text equals the words of some end
Fragment owned by the root. -/
theorem generate_ends_with_end_fragment (db : DB) (root : String) (stateSize : Nat)
    (mt : Option Nat) (filt : Option (MarkovResult → Bool)) (rands : List Nat)
    (r : MarkovResult) (hss : 1 ≤ stateSize)
    (hws : ∀ f ∈ db.fragments, (jsSplit f.words).length = stateSize ∧
      ∀ t ∈ jsSplit f.words, t ≠ [] ∧ ∀ c ∈ t, c.isWhitespace = false)
    (h : generate db root mt filt rands = .ok r) :
    ∃ endF, endF ∈ db.fragments ∧ endF.endWordMarkov = some root ∧
      jsJoin ((jsSplit r.string).drop ((jsSplit r.string).length - stateSize)) =
        endF.words := by
  obtain ⟨arr, hne, hmem, hstr, _, _, lastF, hlastF, endF, hendF, hendRoot, hendW⟩ :=
    generate_ok_spec h
  have hlast_eq : lastF = arr.getLast hne := by
    rw [List.getLast?_eq_getLast arr hne] at hlastF
    exact (Option.some.inj hlastF).symm
  have hdecomp : arr.dropLast ++ [lastF] = arr := by
    rw [hlast_eq]
    exact List.dropLast_append_getLast hne
  have hlast_mem : lastF ∈ arr := by
    rw [hlast_eq]
    exact List.getLast_mem hne
  have hpieces : arr.map (fun f => f.words) =
      (arr.map fun f => jsSplit f.words).map jsJoin := by
    rw [List.map_map]
    apply List.map_congr_left
    intro f _
    exact (jsJoin_jsSplit f.words).symm
  have hTLne : (arr.map fun f => jsSplit f.words) ≠ [] := by simpa using hne
  have hTLnonempty : ∀ x ∈ (arr.map fun f => jsSplit f.words), x ≠ [] := by
    intro x hx
    obtain ⟨f, hf, rfl⟩ := List.mem_map.mp hx
    have hlen := (hws f (hmem f hf)).1
    intro hnil
    rw [hnil] at hlen
    simp at hlen
    omega
  have hjoin : jsJoin (arr.map fun f => f.words) =
      jsJoin (arr.map fun f => jsSplit f.words).flatten := by
    rw [hpieces]
    exact jsJoin_map_join _ hTLnonempty hTLne
  have hallT_tok : ∀ t ∈ (arr.map fun f => jsSplit f.words).flatten,
      t ≠ [] ∧ ∀ c ∈ t, c.isWhitespace = false := by
    intro t ht
    obtain ⟨A, hA, htA⟩ := List.mem_flatten.mp ht
    obtain ⟨f, hf, rfl⟩ := List.mem_map.mp hA
    exact (hws f (hmem f hf)).2 t htA
  obtain ⟨A0, TL2, hTLeq⟩ := List.exists_cons_of_ne_nil hTLne
  obtain ⟨t0, A02, hA0eq⟩ := List.exists_cons_of_ne_nil
    (hTLnonempty A0 (hTLeq ▸ List.mem_cons_self _ _))
  have hallT_eq : (arr.map fun f => jsSplit f.words).flatten =
      t0 :: (A02 ++ TL2.flatten) := by
    rw [hTLeq, hA0eq]
    rfl
  have ht0 := hallT_tok t0 (hallT_eq ▸ List.mem_cons_self _ _)
  have hstring : r.string = jsJoin (arr.map fun f => jsSplit f.words).flatten := by
    rw [hstr, hjoin]
    apply jsTrim_eq_self
    · intro c hc
      rw [hallT_eq, jsJoin_head? t0 _ ht0.1] at hc
      obtain ⟨c0, t02, ht0eq⟩ := List.exists_cons_of_ne_nil ht0.1
      rw [ht0eq] at hc
      have hcc : c0 = c := Option.some.inj hc
      exact ht0.2 c (by rw [ht0eq, ← hcc]; exact List.mem_cons_self _ _)
    · intro c hc
      obtain ⟨t, htmem, hteq⟩ := jsJoin_getLast?_mem
        ((arr.map fun f => jsSplit f.words).flatten)
        (by rw [hallT_eq]; simp) (fun x hx => (hallT_tok x hx).1)
      rw [hteq] at hc
      have htne := (hallT_tok t htmem).1
      rw [List.getLast?_eq_getLast t htne] at hc
      have hcc : t.getLast htne = c := Option.some.inj hc
      exact (hallT_tok t htmem).2 c (hcc ▸ List.getLast_mem htne)
  have hsplit : jsSplit r.string = (arr.map fun f => jsSplit f.words).flatten := by
    rw [hstring]
    rw [jsSplit_jsJoin _ (by rw [hallT_eq]; simp)]
    have hmapeq : ((arr.map fun f => jsSplit f.words).flatten).map jsSplit =
        ((arr.map fun f => jsSplit f.words).flatten).map (fun t => [t]) := by
      apply List.map_congr_left
      intro t ht
      apply jsSplit_of_no_space
      intro hsp
      have hws2 := (hallT_tok t ht).2 ' ' hsp
      exact absurd hws2 (by decide)
    rw [hmapeq, flatten_map_singleton]
  have hfl : (arr.map fun f => jsSplit f.words).flatten =
      (arr.dropLast.map fun f => jsSplit f.words).flatten ++ jsSplit lastF.words := by
    conv_lhs => rw [← hdecomp]
    rw [List.map_append, List.flatten_append]
    simp
  have hlastlen : (jsSplit lastF.words).length = stateSize :=
    (hws lastF (hmem lastF hlast_mem)).1
  refine ⟨endF, hendF, hendRoot, ?_⟩
  rw [hsplit, hfl]
  have hlen2 : ((arr.dropLast.map fun f => jsSplit f.words).flatten ++
      jsSplit lastF.words).length - stateSize =
      ((arr.dropLast.map fun f => jsSplit f.words).flatten).length := by
    rw [List.length_append, hlastlen]
    omega
  rw [hlen2, List.drop_left]
  rw [jsJoin_jsSplit]
  exact hendW.symm

/-- Witness for C8 on the concrete store `dbEnds` with state size 2. -/
theorem generate_ends_with_end_fragment_witness :
    ∃ endF, endF ∈ dbEnds.fragments ∧ endF.endWordMarkov = some "1" ∧
      jsJoin ((jsSplit resEnds.string).drop ((jsSplit resEnds.string).length - 2)) =
        endF.words :=
  generate_ends_with_end_fragment dbEnds "1" 2 none none [0, 0] resEnds
    (by decide) (by decide) rfl
